import Mathlib

/-!
# umm_malloc: the configuration header `src/umm_malloc_cfg.h`

The only source file is a C preprocessor header.  It is embedded in two parts.

* The conditional-compilation structure (lines 8-226) is a function `header`
  on a macro environment: every `#ifdef` becomes an `if` on `Env.isDefined`,
  every `#define` an `Env.define`, every file-scope declaration an
  `Env.declare`, and `#error` an `Except.error`.  The input of the header is a
  `Config`: which of the seven documented `-D` switches (lines 25-61) were given
  on the command line.
* The bodies of the test-build macros `UMM_CRITICAL_ENTRY` / `UMM_CRITICAL_EXIT`
  (lines 151-157) are state transformers on the two `int` globals
  `umm_critical_depth` and `umm_max_critical_depth`.  A C `int` is a bounded
  integer and signed overflow is undefined behaviour, so both return `Option`.
-/

namespace UmmMallocCfg

/-! ## Macro environments -/

/-- Identifiers that the header tests, defines, declares or mentions in a
replacement list. -/
inductive Ident
  | _UMM_MALLOC_CFG_H
  | UMM_H_ATTPACKPRE
  | UMM_H_ATTPACKSUF
  | UMM_TEST_BUILD
  | UMM_BEST_FIT
  | UMM_FIRST_FIT
  | UMM_INFO
  | UMM_INLINE_METRICS
  | UMM_INTEGRITY_CHECK
  | UMM_POISON_CHECK
  | UMM_FRAGMENTATION_METRIC_INIT
  | UMM_FRAGMENTATION_METRIC_ADD
  | UMM_FRAGMENTATION_METRIC_REMOVE
  | umm_fragmentation_metric_init
  | umm_fragmentation_metric_add
  | umm_fragmentation_metric_remove
  | UMM_HEAP_INFO
  | ummHeapInfo
  | umm_info
  | umm_free_heap_size
  | umm_max_free_block_size
  | umm_usage_metric
  | umm_fragmentation_metric
  | umm_in_use_metric
  | umm_critical_depth
  | umm_max_critical_depth
  | UMM_CRITICAL_ENTRY
  | UMM_CRITICAL_EXIT
  | umm_integrity_check
  | INTEGRITY_CHECK
  | umm_corruption
  | UMM_HEAP_CORRUPTION_CB
  | UMM_POISON_SIZE_BEFORE
  | UMM_POISON_SIZE_AFTER
  | UMM_POISONED_BLOCK_LEN_TYPE
  | umm_poison_malloc
  | umm_poison_calloc
  | umm_poison_realloc
  | umm_poison_free
  | umm_poison_check
  | POISON_CHECK
  deriving DecidableEq, Repr

/-- Type names that occur in a replacement list (line 213). -/
inductive CType
  | uint16_t
  deriving DecidableEq, Repr

/-- Width in bits of a `CType` (`<stdint.h>`: `uint16_t` has exactly 16 bits). -/
def CType.bits : CType → Nat
  | .uint16_t => 16

/-- Value of `sizeof` in bytes. -/
def CType.sizeof (t : CType) : Nat := t.bits / 8

/-- Replacement list of a macro. -/
inductive Repl
  /-- No tokens: `#define NAME`. -/
  | empty
  /-- The token `1` that `-D NAME` gives. -/
  | one
  /-- A parenthesised constant, `(n)`. -/
  | paren (n : Nat)
  /-- A call of `f` that passes the macro parameters on: `f()` or `f(c)`. -/
  | call (f : Ident)
  /-- The tokens `__attribute__((__packed__))`. -/
  | attributePacked
  /-- A type name. -/
  | typeName (t : CType)
  /-- The call `printf( s )` to a string literal `s`. -/
  | printfOf (s : String)
  /-- The block of lines 151-156: pre-increment of `umm_critical_depth`, then
  the conditional update of `umm_max_critical_depth`. -/
  | countedEntry
  /-- The expression of line 157: `(umm_critical_depth--)`. -/
  | countedExit
  deriving DecidableEq, Repr

/-- A macro definition: `params = none` for an object-like macro, `some ps`
for a function-like one with parameter names `ps`. -/
structure MacroDef where
  params : Option (List String)
  body : Repl
  deriving DecidableEq, Repr

/-- State of the translation unit: the macros currently defined and the
identifiers declared at file scope (typedefs, `extern` objects and functions). -/
structure Env where
  macros : Ident → Option MacroDef
  decls : Ident → Bool

/-- Test of `#ifdef`. -/
def Env.isDefined (e : Env) (i : Ident) : Bool := (e.macros i).isSome

/-- Effect of `#define`. -/
def Env.define (e : Env) (i : Ident) (params : Option (List String)) (body : Repl) : Env :=
  ⟨fun j => if j = i then some ⟨params, body⟩ else e.macros j, e.decls⟩

/-- Effect of a file-scope declaration of `i`. -/
def Env.declare (e : Env) (i : Ident) : Env :=
  ⟨e.macros, fun j => if j = i then true else e.decls j⟩

/-- The switches documented in lines 25-61 that the header reacts to; `true`
means the switch was given as `-D NAME` on the command line. -/
structure Config where
  UMM_TEST_BUILD : Bool
  UMM_BEST_FIT : Bool
  UMM_FIRST_FIT : Bool
  UMM_INFO : Bool
  UMM_INLINE_METRICS : Bool
  UMM_INTEGRITY_CHECK : Bool
  UMM_POISON_CHECK : Bool
  deriving DecidableEq, Repr

/-- Macro given by `-D NAME`: object-like with replacement `1`. -/
def cmdLine (b : Bool) : Option MacroDef := if b then some ⟨none, .one⟩ else none

/-- Environment in which the header starts to be processed: exactly the
switches of the configuration are defined and nothing is declared. -/
def Config.toEnv (c : Config) : Env where
  macros := fun i =>
    match i with
    | .UMM_TEST_BUILD => cmdLine c.UMM_TEST_BUILD
    | .UMM_BEST_FIT => cmdLine c.UMM_BEST_FIT
    | .UMM_FIRST_FIT => cmdLine c.UMM_FIRST_FIT
    | .UMM_INFO => cmdLine c.UMM_INFO
    | .UMM_INLINE_METRICS => cmdLine c.UMM_INLINE_METRICS
    | .UMM_INTEGRITY_CHECK => cmdLine c.UMM_INTEGRITY_CHECK
    | .UMM_POISON_CHECK => cmdLine c.UMM_POISON_CHECK
    | _ => none
  decls := fun _ => false

/-! ## The header, block by block -/

/-- Text of the `#error` directive of line 86. -/
def bothFitsMessage : String :=
  "Both UMM_BEST_FIT and UMM_FIRST_FIT are defined - pick one!"

/-- Lines 79-80: the two structure-packing macros. -/
def packingBlock (e : Env) : Env :=
  (e.define .UMM_H_ATTPACKPRE none .empty).define .UMM_H_ATTPACKSUF none .attributePacked

/-- Lines 84-92: resolution of the fit strategy. -/
def strategyBlock (e : Env) : Except String Env :=
  if e.isDefined .UMM_BEST_FIT then
    if e.isDefined .UMM_FIRST_FIT then
      .error bothFitsMessage
    else
      .ok e
  else
    if !e.isDefined .UMM_FIRST_FIT then
      .ok (e.define .UMM_BEST_FIT none .empty)
    else
      .ok e

/-- Lines 96-104: the inline-metrics hooks. -/
def inlineMetricsBlock (e : Env) : Env :=
  if e.isDefined .UMM_INLINE_METRICS then
    ((e.define .UMM_FRAGMENTATION_METRIC_INIT (some []) (.call .umm_fragmentation_metric_init)).define
      .UMM_FRAGMENTATION_METRIC_ADD (some ["c"]) (.call .umm_fragmentation_metric_add)).define
      .UMM_FRAGMENTATION_METRIC_REMOVE (some ["c"]) (.call .umm_fragmentation_metric_remove)
  else
    ((e.define .UMM_FRAGMENTATION_METRIC_INIT (some []) .empty).define
      .UMM_FRAGMENTATION_METRIC_ADD (some ["c"]) .empty).define
      .UMM_FRAGMENTATION_METRIC_REMOVE (some ["c"]) .empty

/-- Lines 108-136: the heap-information record and the metric queries, or
their disabled-mode macros. -/
def infoBlock (e : Env) : Env :=
  if e.isDefined .UMM_INFO then
    ((((((e.declare .UMM_HEAP_INFO).declare .ummHeapInfo).declare .umm_info).declare
      .umm_free_heap_size).declare .umm_max_free_block_size).declare
      .umm_usage_metric).declare .umm_fragmentation_metric
  else
    ((((e.define .umm_info (some ["p", "b"]) .empty).define
      .umm_free_heap_size (some []) (.paren 0)).define
      .umm_max_free_block_size (some []) (.paren 0)).define
      .umm_fragmentation_metric (some []) (.paren 0)).define
      .umm_in_use_metric (some []) (.paren 0)

/-- Lines 148-161: the protected-section macros. -/
def criticalBlock (e : Env) : Env :=
  if e.isDefined .UMM_TEST_BUILD then
    (((e.declare .umm_critical_depth).declare .umm_max_critical_depth).define
      .UMM_CRITICAL_ENTRY (some []) .countedEntry).define
      .UMM_CRITICAL_EXIT (some []) .countedExit
  else
    (e.define .UMM_CRITICAL_ENTRY (some []) .empty).define .UMM_CRITICAL_EXIT (some []) .empty

/-- Lines 175-182: the integrity check. -/
def integrityBlock (e : Env) : Env :=
  if e.isDefined .UMM_INTEGRITY_CHECK then
    (((e.declare .umm_integrity_check).define
      .INTEGRITY_CHECK (some []) (.call .umm_integrity_check)).declare
      .umm_corruption).define
      .UMM_HEAP_CORRUPTION_CB (some []) (.printfOf "Heap Corruption!")
  else
    e.define .INTEGRITY_CHECK (some []) (.paren 1)

/-- Lines 210-224: heap poisoning. -/
def poisonBlock (e : Env) : Env :=
  if e.isDefined .UMM_POISON_CHECK then
    ((((((((e.define .UMM_POISON_SIZE_BEFORE none (.paren 6)).define
      .UMM_POISON_SIZE_AFTER none (.paren 6)).define
      .UMM_POISONED_BLOCK_LEN_TYPE none (.typeName .uint16_t)).declare
      .umm_poison_malloc).declare .umm_poison_calloc).declare
      .umm_poison_realloc).declare .umm_poison_free).declare
      .umm_poison_check).define
      .POISON_CHECK (some []) (.call .umm_poison_check)
  else
    e.define .POISON_CHECK (some []) (.paren 1)

/-- Lines 11-224: everything between the include guard and its `#endif`.  The
three `#include`s of standard headers define none of the identifiers above. -/
def headerBody (e : Env) : Except String Env :=
  (strategyBlock (packingBlock e)).map fun e1 =>
    poisonBlock (integrityBlock (criticalBlock (infoBlock (inlineMetricsBlock e1))))

/-- Lines 8-226: the whole header with its include guard. -/
def header (e : Env) : Except String Env :=
  if !e.isDefined ._UMM_MALLOC_CFG_H then
    headerBody (e.define ._UMM_MALLOC_CFG_H none .empty)
  else
    .ok e

/-- Result of compiling a translation unit that includes the header under
configuration `c`. -/
def process (c : Config) : Except String Env := header c.toEnv

/-! ## Reading the configured constants -/

/-- Value of an object-like macro whose replacement is a parenthesised
constant. -/
def Env.constant (e : Env) (i : Ident) : Option Nat :=
  match e.macros i with
  | some ⟨none, .paren n⟩ => some n
  | _ => none

/-- Type named by an object-like macro. -/
def Env.typeOf (e : Env) (i : Ident) : Option CType :=
  match e.macros i with
  | some ⟨none, .typeName t⟩ => some t
  | _ => none

/-- Per-allocation overhead implied by the three poison constants:
`UMM_POISON_SIZE_BEFORE + UMM_POISON_SIZE_AFTER +
sizeof(UMM_POISONED_BLOCK_LEN_TYPE)`; `none` when one of them is not defined. -/
def poisonOverhead (e : Env) : Option Nat := do
  let before ← e.constant .UMM_POISON_SIZE_BEFORE
  let after ← e.constant .UMM_POISON_SIZE_AFTER
  let t ← e.typeOf .UMM_POISONED_BLOCK_LEN_TYPE
  pure (before + after + t.sizeof)

/-- Modelled from the spec: the poison layer that writes the stored-length field
is not among the sources.  The spec stores the exact requested length in a field
of the configured narrower integer type; storing a `size_t` value `n` in an
unsigned type of `b` bits keeps `n` modulo `2 ^ b`.  The result is `none` when
`UMM_POISONED_BLOCK_LEN_TYPE` is not defined. -/
def storeLength (e : Env) (n : Nat) : Option Nat :=
  (e.typeOf .UMM_POISONED_BLOCK_LEN_TYPE).map fun t => n % 2 ^ t.bits

/-! ## Some configurations -/

/-- No switch given. -/
def Config.defaults : Config := ⟨false, false, false, false, false, false, false⟩

/-- Only `-D UMM_FIRST_FIT`. -/
def Config.firstFitOnly : Config := { Config.defaults with UMM_FIRST_FIT := true }

/-- Only `-D UMM_INFO`. -/
def Config.infoOnly : Config := { Config.defaults with UMM_INFO := true }

/-- Only `-D UMM_INLINE_METRICS`. -/
def Config.inlineMetricsOnly : Config := { Config.defaults with UMM_INLINE_METRICS := true }

/-- Only `-D UMM_INTEGRITY_CHECK`. -/
def Config.integrityOnly : Config := { Config.defaults with UMM_INTEGRITY_CHECK := true }

/-- Only `-D UMM_POISON_CHECK`. -/
def Config.poisonOnly : Config := { Config.defaults with UMM_POISON_CHECK := true }

/-! ## The test-build protected section (lines 148-157) -/

/-- Largest value of a C `int` that has `w` bits (`<limits.h>`; the width is
fixed by the platform, the C standard requires at least 16). -/
def INT_MAX (w : Nat) : Int := 2 ^ (w - 1) - 1

/-- Smallest value of a C `int` that has `w` bits. -/
def INT_MIN (w : Nat) : Int := -(2 ^ (w - 1))

/-- The two `int` objects declared in lines 149-150. -/
structure Globals where
  umm_critical_depth : Int
  umm_max_critical_depth : Int
  deriving DecidableEq, Repr

/-- Lines 151-156, the body of `UMM_CRITICAL_ENTRY()`: `++umm_critical_depth`,
then `umm_max_critical_depth = umm_critical_depth` if the depth is now larger.
Incrementing an `int` that holds `INT_MAX` is undefined behaviour: `none`. -/
def UMM_CRITICAL_ENTRY (w : Nat) (g : Globals) : Option Globals :=
  if g.umm_critical_depth + 1 ≤ INT_MAX w then
    let g1 : Globals := { g with umm_critical_depth := g.umm_critical_depth + 1 }
    if g1.umm_critical_depth > g1.umm_max_critical_depth then
      some { g1 with umm_max_critical_depth := g1.umm_critical_depth }
    else
      some g1
  else
    none

/-- Line 157, the body of `UMM_CRITICAL_EXIT()`: `umm_critical_depth--`.
Decrementing an `int` that holds `INT_MIN` is undefined behaviour: `none`. -/
def UMM_CRITICAL_EXIT (w : Nat) (g : Globals) : Option Globals :=
  if INT_MIN w ≤ g.umm_critical_depth - 1 then
    some { g with umm_critical_depth := g.umm_critical_depth - 1 }
  else
    none

/-- Execution of a replacement list used as a statement on the two globals:
the two test-build bodies, and the empty body of lines 159-160. -/
def Repl.exec (w : Nat) : Repl → Globals → Option Globals
  | .countedEntry, g => UMM_CRITICAL_ENTRY w g
  | .countedExit, g => UMM_CRITICAL_EXIT w g
  | .empty, g => some g
  | _, _ => none

/-- A use of one of the two protected-section macros. -/
inductive Call
  | entry
  | exit
  deriving DecidableEq, Repr

/-- Effect of one macro use in a test build. -/
def Call.apply (w : Nat) : Call → Globals → Option Globals
  | .entry => UMM_CRITICAL_ENTRY w
  | .exit => UMM_CRITICAL_EXIT w

/-- Effect of a sequence of macro uses, first to last. -/
def run (w : Nat) (g : Globals) : List Call → Option Globals
  | [] => some g
  | c :: cs => (c.apply w g).bind fun g1 => run w g1 cs

/-! ### Vocabulary for sequences of macro uses -/

/-- Change of nesting level caused by one use. -/
def Call.delta : Call → Int
  | .entry => 1
  | .exit => -1

/-- Nesting level after a sequence, relative to its start. -/
def net : List Call → Int
  | [] => 0
  | c :: cs => c.delta + net cs

/-- Highest nesting level over all prefixes of a sequence, relative to its
start (the empty prefix counts, so it is never negative). -/
def peak : List Call → Int
  | [] => 0
  | c :: cs => max 0 (c.delta + peak cs)

/-- Lowest nesting level over all prefixes of a sequence, relative to its
start (never positive). -/
def trough : List Call → Int
  | [] => 0
  | c :: cs => min 0 (c.delta + trough cs)

/-- Reading a sequence with `k` sections already open: no exit without an open
section, and none left open at the end. -/
def balancedFrom : Nat → List Call → Bool
  | k, [] => k == 0
  | k, .entry :: cs => balancedFrom (k + 1) cs
  | 0, .exit :: _ => false
  | k + 1, .exit :: cs => balancedFrom k cs

/-- A well-nested (balanced) sequence of enter/exit uses. -/
def wellNested (cs : List Call) : Prop := balancedFrom 0 cs = true

instance (cs : List Call) : Decidable (wellNested cs) :=
  inferInstanceAs (Decidable (balancedFrom 0 cs = true))

/-- Nesting depths reached right after each entry of a sequence started at
depth `d`, as unbounded integers. -/
def entryDepths (d : Int) : List Call → List Int
  | [] => []
  | .entry :: cs => (d + 1) :: entryDepths (d + 1) cs
  | .exit :: cs => entryDepths (d - 1) cs

/-! ## Acceptance of a configuration -/

/-- Every configuration that does not request both strategies is accepted. -/
theorem process_ok_of_not_both (c : Config)
    (h : ¬ (c.UMM_BEST_FIT = true ∧ c.UMM_FIRST_FIT = true)) : ∃ e, process c = .ok e := by
  obtain ⟨t, b, f, i, m, g, p⟩ := c
  cases t <;> cases b <;> cases f <;> cases i <;> cases m <;> cases g <;> cases p <;>
    first
    | exact absurd (And.intro rfl rfl) h
    | exact ⟨_, rfl⟩

/-- Requesting both strategies stops the header at the `#error` of line 86. -/
theorem process_error_of_both (c : Config)
    (h : c.UMM_BEST_FIT = true ∧ c.UMM_FIRST_FIT = true) :
    process c = .error bothFitsMessage := by
  obtain ⟨t, b, f, i, m, g, p⟩ := c
  obtain ⟨hb, hf⟩ := h
  simp only at hb hf
  subst hb hf
  cases t <;> cases i <;> cases m <;> cases g <;> cases p <;> rfl

/-- Storing into a `uint16_t` field keeps the length modulo `2 ^ 16`. -/
theorem storeLength_of_uint16 (e : Env)
    (ht : e.typeOf .UMM_POISONED_BLOCK_LEN_TYPE = some .uint16_t) (n : Nat) :
    storeLength e n = some (n % 2 ^ 16) := by
  rw [storeLength, ht]
  rfl

/-- What an accepted configuration decides about three identifiers: `UMM_INFO`
is defined afterwards exactly when it was requested, `UMM_HEAP_CORRUPTION_CB`
exactly when `UMM_INTEGRITY_CHECK` was requested, and `umm_usage_metric` is
never a macro. -/
theorem defined_after_header (c : Config)
    (h : ¬ (c.UMM_BEST_FIT = true ∧ c.UMM_FIRST_FIT = true)) :
    ∃ e, process c = .ok e ∧
      e.isDefined .UMM_INFO = c.UMM_INFO ∧
      e.isDefined .UMM_HEAP_CORRUPTION_CB = c.UMM_INTEGRITY_CHECK ∧
      e.isDefined .umm_usage_metric = false ∧
      e.decls .umm_usage_metric = c.UMM_INFO := by
  obtain ⟨t, b, f, i, m, g, p⟩ := c
  cases t <;> cases b <;> cases f <;> cases i <;> cases m <;> cases g <;> cases p <;>
    first
    | exact absurd (And.intro rfl rfl) h
    | exact ⟨_, rfl, by decide⟩

/-! ## Protected section: auxiliary facts -/

/-- The highest level is at least the starting level. -/
theorem peak_nonneg (cs : List Call) : 0 ≤ peak cs := by
  cases cs with
  | nil => simp [peak]
  | cons c cs => simp [peak]

/-- The lowest level is at most the starting level. -/
theorem trough_nonpos (cs : List Call) : trough cs ≤ 0 := by
  cases cs with
  | nil => simp [trough]
  | cons c cs => simp [trough]

/-- Below `INT_MAX` an entry adds 1 to the depth and raises the maximum to it. -/
theorem entry_of_lt (w : Nat) (g : Globals) (h : g.umm_critical_depth < INT_MAX w) :
    UMM_CRITICAL_ENTRY w g = some
      ⟨g.umm_critical_depth + 1, max g.umm_max_critical_depth (g.umm_critical_depth + 1)⟩ := by
  have h1 : g.umm_critical_depth + 1 ≤ INT_MAX w := by omega
  simp only [UMM_CRITICAL_ENTRY, h1, if_true]
  by_cases h2 : g.umm_critical_depth + 1 > g.umm_max_critical_depth
  · simp only [h2, if_true]
    congr 2
    omega
  · simp only [h2, if_false]
    congr 2
    omega

/-- Above `INT_MIN` an exit subtracts 1 from the depth and keeps the maximum. -/
theorem exit_of_lt (w : Nat) (g : Globals) (h : INT_MIN w < g.umm_critical_depth) :
    UMM_CRITICAL_EXIT w g = some ⟨g.umm_critical_depth - 1, g.umm_max_critical_depth⟩ := by
  have h1 : INT_MIN w ≤ g.umm_critical_depth - 1 := by omega
  simp only [UMM_CRITICAL_EXIT, h1, if_true]

/-- Running a concatenation is running its parts in turn. -/
theorem run_append (w : Nat) (p q : List Call) (g : Globals) :
    run w g (p ++ q) = (run w g p).bind fun gp => run w gp q := by
  induction p generalizing g with
  | nil => simp [run]
  | cons c p ih =>
    simp only [List.cons_append, run]
    cases c.apply w g with
    | none => simp
    | some g1 => simpa using ih g1

/-- Levels add up along a concatenation. -/
theorem net_append (p q : List Call) : net (p ++ q) = net p + net q := by
  induction p with
  | nil => simp [net]
  | cons c p ih =>
    show c.delta + net (p ++ q) = c.delta + net p + net q
    omega

/-- A prefix does not go higher than the whole sequence. -/
theorem peak_append_ge (p q : List Call) : peak p ≤ peak (p ++ q) := by
  induction p with
  | nil => simpa [peak] using peak_nonneg q
  | cons c p ih =>
    show max 0 (c.delta + peak p) ≤ max 0 (c.delta + peak (p ++ q))
    omega

/-- A prefix does not go lower than the whole sequence. -/
theorem trough_append_le (p q : List Call) : trough (p ++ q) ≤ trough p := by
  induction p with
  | nil => simpa [trough] using trough_nonpos q
  | cons c p ih =>
    show min 0 (c.delta + trough (p ++ q)) ≤ min 0 (c.delta + trough p)
    omega

/-- The final level is not below the lowest level. -/
theorem trough_le_net (cs : List Call) : trough cs ≤ net cs := by
  induction cs with
  | nil => simp [trough, net]
  | cons c cs ih => simp only [trough, net]; omega

/-- A sequence accepted with `k` open sections closes exactly those `k` and
never goes below the level at which none is open. -/
theorem balancedFrom_spec (cs : List Call) :
    ∀ k : Nat, balancedFrom k cs = true → (k : Int) + net cs = 0 ∧ 0 ≤ (k : Int) + trough cs := by
  induction cs with
  | nil =>
    intro k h
    simp only [balancedFrom, beq_iff_eq] at h
    subst h
    simp [net, trough]
  | cons c cs ih =>
    intro k h
    cases c with
    | entry =>
      simp only [balancedFrom] at h
      have := ih (k + 1) h
      simp only [net, trough, Call.delta]
      omega
    | exit =>
      cases k with
      | zero => simp [balancedFrom] at h
      | succ k =>
        simp only [balancedFrom] at h
        have := ih k h
        simp only [net, trough, Call.delta]
        omega

/-- Converse of `balancedFrom_spec`: a sequence that closes exactly the `k` open
sections and never goes below the level at which none is open is accepted. -/
theorem balancedFrom_of_levels (cs : List Call) :
    ∀ k : Nat, (k : Int) + net cs = 0 → 0 ≤ (k : Int) + trough cs →
      balancedFrom k cs = true := by
  induction cs with
  | nil =>
    intro k h _
    simp only [net] at h
    have hk : k = 0 := by omega
    subst hk
    rfl
  | cons c cs ih =>
    intro k h1 h2
    have ht := trough_nonpos cs
    cases c with
    | entry =>
      simp only [net, trough, Call.delta] at h1 h2
      simp only [balancedFrom]
      exact ih (k + 1) (by push_cast; omega) (by push_cast; omega)
    | exit =>
      simp only [net, trough, Call.delta] at h1 h2
      cases k with
      | zero => simp only [Nat.cast_zero] at h2; omega
      | succ k =>
        simp only [balancedFrom]
        push_cast at h1 h2
        exact ih k (by omega) (by omega)

/-- The sequences accepted by `wellNested` are exactly those that end at the
starting level without ever going below it. -/
theorem wellNested_iff (cs : List Call) :
    wellNested cs ↔ net cs = 0 ∧ trough cs = 0 := by
  constructor
  · intro h
    have h1 := balancedFrom_spec cs 0 h
    have h2 := trough_nonpos cs
    simp only [Nat.cast_zero, zero_add] at h1
    exact ⟨h1.1, by omega⟩
  · rintro ⟨h1, h2⟩
    exact balancedFrom_of_levels cs 0 (by simpa using h1) (by simp [h2])

/-- A well-nested sequence ends at the level where it started. -/
theorem wellNested_net (cs : List Call) (h : wellNested cs) : net cs = 0 := by
  have := (balancedFrom_spec cs 0 h).1
  simpa using this

/-- A well-nested sequence never goes below the level where it started. -/
theorem wellNested_trough (cs : List Call) (h : wellNested cs) : trough cs = 0 := by
  have h1 := (balancedFrom_spec cs 0 h).2
  have h2 := trough_nonpos cs
  simp at h1
  omega

/-- The run of a sequence whose nesting levels all fit in an `int`. -/
theorem run_of_in_range (w : Nat) (cs : List Call) :
    ∀ g : Globals,
      INT_MIN w ≤ g.umm_critical_depth + trough cs →
      g.umm_critical_depth + peak cs ≤ INT_MAX w →
      ∃ g1, run w g cs = some g1 ∧
        g1.umm_critical_depth = g.umm_critical_depth + net cs ∧
        g.umm_max_critical_depth ≤ g1.umm_max_critical_depth ∧
        (g.umm_critical_depth ≤ g.umm_max_critical_depth →
          g1.umm_critical_depth ≤ g1.umm_max_critical_depth) ∧
        (∀ x ∈ entryDepths g.umm_critical_depth cs, x ≤ g1.umm_max_critical_depth) ∧
        (g1.umm_max_critical_depth = g.umm_max_critical_depth ∨
          g1.umm_max_critical_depth ∈ entryDepths g.umm_critical_depth cs) := by
  induction cs with
  | nil =>
    intro g _ _
    exact ⟨g, rfl, by simp [net], le_refl _, fun h => h, by simp [entryDepths], Or.inl rfl⟩
  | cons c cs ih =>
    intro g hlo hhi
    have hp := peak_nonneg cs
    have ht := trough_nonpos cs
    cases c with
    | entry =>
      simp only [peak, trough, Call.delta] at hlo hhi
      have hstep := entry_of_lt w g (by omega)
      obtain ⟨g1, hrun, hd, hm, hinv, hall, hmem⟩ :=
        ih ⟨g.umm_critical_depth + 1, max g.umm_max_critical_depth (g.umm_critical_depth + 1)⟩
          (by simp only; omega) (by simp only; omega)
      simp only at hd hm hinv hall hmem
      refine ⟨g1, ?_, ?_, ?_, ?_, ?_, ?_⟩
      · simp only [run, Call.apply, hstep, Option.some_bind, hrun]
      · simp only [net, Call.delta]; omega
      · omega
      · intro _
        exact hinv (by omega)
      · intro x hx
        simp only [entryDepths, List.mem_cons] at hx
        rcases hx with hx | hx
        · omega
        · exact hall x hx
      · simp only [entryDepths, List.mem_cons]
        rcases hmem with hmem | hmem
        · by_cases hc : g.umm_max_critical_depth ≤ g.umm_critical_depth + 1
          · right; left; omega
          · left; omega
        · right; right; exact hmem
    | exit =>
      simp only [peak, trough, Call.delta] at hlo hhi
      have hstep := exit_of_lt w g (by omega)
      obtain ⟨g1, hrun, hd, hm, hinv, hall, hmem⟩ :=
        ih ⟨g.umm_critical_depth - 1, g.umm_max_critical_depth⟩
          (by simp only; omega) (by simp only; omega)
      simp only at hd hm hinv hall hmem
      refine ⟨g1, ?_, ?_, hm, ?_, ?_, ?_⟩
      · simp only [run, Call.apply, hstep, Option.some_bind, hrun]
      · simp only [net, Call.delta]; omega
      · intro _
        exact hinv (by omega)
      · intro x hx
        simp only [entryDepths] at hx
        exact hall x hx
      · simp only [entryDepths]
        exact hmem

/-- No run lowers `umm_max_critical_depth`. -/
theorem run_max_mono (w : Nat) (cs : List Call) :
    ∀ g g1 : Globals, run w g cs = some g1 →
      g.umm_max_critical_depth ≤ g1.umm_max_critical_depth := by
  induction cs with
  | nil =>
    intro g g1 h
    simp only [run, Option.some.injEq] at h
    subst h
    exact le_refl _
  | cons c cs ih =>
    intro g g1 h
    simp only [run] at h
    cases hstep : c.apply w g with
    | none => simp [hstep] at h
    | some g2 =>
      simp only [hstep, Option.some_bind] at h
      have h2 := ih g2 g1 h
      have h3 : g.umm_max_critical_depth ≤ g2.umm_max_critical_depth := by
        cases c with
        | entry =>
          simp only [Call.apply, UMM_CRITICAL_ENTRY] at hstep
          split at hstep
          · split at hstep
            · simp only [Option.some.injEq] at hstep
              subst hstep
              simp only
              omega
            · simp only [Option.some.injEq] at hstep
              subst hstep
              exact le_refl _
          · simp at hstep
        | exit =>
          simp only [Call.apply, UMM_CRITICAL_EXIT] at hstep
          split at hstep
          · simp only [Option.some.injEq] at hstep
            subst hstep
            exact le_refl _
          · simp at hstep
      omega

/-- A run is defined exactly when every nesting level it passes through fits
in an `int`. -/
theorem run_isSome_iff (w : Nat) (cs : List Call) :
    ∀ g : Globals, INT_MIN w ≤ g.umm_critical_depth → g.umm_critical_depth ≤ INT_MAX w →
      ((run w g cs).isSome = true ↔
        (INT_MIN w ≤ g.umm_critical_depth + trough cs ∧
          g.umm_critical_depth + peak cs ≤ INT_MAX w)) := by
  induction cs with
  | nil =>
    intro g h1 h2
    simp only [run, Option.isSome_some, trough, peak, true_iff]
    omega
  | cons c cs ih =>
    intro g h1 h2
    constructor
    · intro h
      have hp := peak_nonneg cs
      have ht := trough_nonpos cs
      simp only [run] at h
      cases hstep : c.apply w g with
      | none => simp [hstep] at h
      | some g2 =>
        simp only [hstep, Option.some_bind] at h
        cases c with
        | entry =>
          simp only [Call.apply, UMM_CRITICAL_ENTRY] at hstep
          split at hstep
          · rename_i hle
            have hd : g2.umm_critical_depth = g.umm_critical_depth + 1 := by
              split at hstep <;>
                (simp only [Option.some.injEq] at hstep; subst hstep; rfl)
            have := (ih g2 (by omega) (by omega)).1 h
            simp only [trough, peak, Call.delta]
            omega
          · simp at hstep
        | exit =>
          simp only [Call.apply, UMM_CRITICAL_EXIT] at hstep
          split at hstep
          · rename_i hle
            have hd : g2.umm_critical_depth = g.umm_critical_depth - 1 := by
              simp only [Option.some.injEq] at hstep; subst hstep; rfl
            have := (ih g2 (by omega) (by omega)).1 h
            simp only [trough, peak, Call.delta]
            omega
          · simp at hstep
    · rintro ⟨hlo, hhi⟩
      obtain ⟨g1, hrun, _⟩ := run_of_in_range w (c :: cs) g hlo hhi
      simp [hrun]

/-- In an accepted test build the two macros have the counted bodies, which
execute as `UMM_CRITICAL_ENTRY` and `UMM_CRITICAL_EXIT`; in an accepted build
without `UMM_TEST_BUILD` both bodies are empty. -/
theorem critical_macros_of_config (c : Config)
    (h : ¬ (c.UMM_BEST_FIT = true ∧ c.UMM_FIRST_FIT = true)) :
    (∃ e, process c = .ok e ∧
      e.macros .UMM_CRITICAL_ENTRY =
        some ⟨some [], if c.UMM_TEST_BUILD then .countedEntry else .empty⟩ ∧
      e.macros .UMM_CRITICAL_EXIT =
        some ⟨some [], if c.UMM_TEST_BUILD then .countedExit else .empty⟩) ∧
    (∀ w g, Repl.countedEntry.exec w g = UMM_CRITICAL_ENTRY w g) ∧
    (∀ w g, Repl.countedExit.exec w g = UMM_CRITICAL_EXIT w g) := by
  refine ⟨?_, fun _ _ => rfl, fun _ _ => rfl⟩
  obtain ⟨t, b, f, i, m, g, p⟩ := c
  cases t <;> cases b <;> cases f <;> cases i <;> cases m <;> cases g <;> cases p <;>
    first
    | exact absurd (And.intro rfl rfl) h
    | exact ⟨_, rfl, by decide⟩

/-! ## Fit strategy (C1, C2) -/

/-- C1: for every configuration in which `UMM_BEST_FIT` and `UMM_FIRST_FIT` are
not both requested the header is accepted, and afterwards exactly one of the two
is defined: first-fit exactly when it was requested, best-fit exactly when
first-fit was not requested. -/
theorem strategy_selects_exactly_one (c : Config)
    (h : ¬ (c.UMM_BEST_FIT = true ∧ c.UMM_FIRST_FIT = true)) :
    ∃ e, process c = .ok e ∧
      (e.isDefined .UMM_BEST_FIT ≠ e.isDefined .UMM_FIRST_FIT) ∧
      e.isDefined .UMM_BEST_FIT = !c.UMM_FIRST_FIT ∧
      e.isDefined .UMM_FIRST_FIT = c.UMM_FIRST_FIT := by
  obtain ⟨t, b, f, i, m, g, p⟩ := c
  cases t <;> cases b <;> cases f <;> cases i <;> cases m <;> cases g <;> cases p <;>
    first
    | exact absurd (And.intro rfl rfl) h
    | exact ⟨_, rfl, by decide⟩

/-- Requesting neither strategy yields best-fit, and requesting first-fit alone
leaves best-fit undefined: C1 at the configurations `defaults` and
`firstFitOnly`. -/
theorem strategy_selects_exactly_one_witness :
    (∃ e, process Config.defaults = .ok e ∧
      (e.isDefined .UMM_BEST_FIT ≠ e.isDefined .UMM_FIRST_FIT) ∧
      e.isDefined .UMM_BEST_FIT = !false ∧ e.isDefined .UMM_FIRST_FIT = false) ∧
    (∃ e, process Config.firstFitOnly = .ok e ∧
      (e.isDefined .UMM_BEST_FIT ≠ e.isDefined .UMM_FIRST_FIT) ∧
      e.isDefined .UMM_BEST_FIT = !true ∧ e.isDefined .UMM_FIRST_FIT = true) :=
  ⟨strategy_selects_exactly_one Config.defaults (by decide),
   strategy_selects_exactly_one Config.firstFitOnly (by decide)⟩

/-- C2: the header stops with the `#error` of line 86 if and only if both
`UMM_BEST_FIT` and `UMM_FIRST_FIT` are requested, and it is accepted if and only
if they are not both requested. -/
theorem strategy_rejects_iff_both (c : Config) :
    (process c = .error bothFitsMessage ↔
      (c.UMM_BEST_FIT = true ∧ c.UMM_FIRST_FIT = true)) ∧
    ((∃ e, process c = .ok e) ↔ ¬ (c.UMM_BEST_FIT = true ∧ c.UMM_FIRST_FIT = true)) := by
  by_cases h : c.UMM_BEST_FIT = true ∧ c.UMM_FIRST_FIT = true
  · have he := process_error_of_both c h
    refine ⟨⟨fun _ => h, fun _ => he⟩, ⟨?_, fun h2 => absurd h h2⟩⟩
    rintro ⟨e, hok⟩
    rw [he] at hok
    cases hok
  · obtain ⟨e, hok⟩ := process_ok_of_not_both c h
    refine ⟨⟨?_, fun h2 => absurd h2 h⟩, ⟨fun _ => h, fun _ => ⟨e, hok⟩⟩⟩
    intro he
    rw [hok] at he
    cases he

/-! ## Corruption callback (C4) -/

/-- C4 at its failing input: with only `UMM_POISON_CHECK` requested the header is
accepted and enables the poison check (`POISON_CHECK()` calls
`umm_poison_check()`), but `UMM_HEAP_CORRUPTION_CB` is neither defined nor
declared; with only `UMM_INTEGRITY_CHECK` requested the sibling block defines it
as the `printf` notice. -/
theorem corruption_cb_undefined_with_poison_only :
    (∃ e, process Config.poisonOnly = .ok e ∧
      e.isDefined .UMM_POISON_CHECK = true ∧
      e.macros .POISON_CHECK = some ⟨some [], .call .umm_poison_check⟩ ∧
      e.isDefined .UMM_HEAP_CORRUPTION_CB = false ∧
      e.decls .UMM_HEAP_CORRUPTION_CB = false) ∧
    (∃ e, process Config.integrityOnly = .ok e ∧
      e.macros .UMM_HEAP_CORRUPTION_CB = some ⟨some [], .printfOf "Heap Corruption!"⟩) :=
  ⟨⟨_, rfl, by decide⟩, ⟨_, rfl, by decide⟩⟩

/-! ## Inline metrics and the information block (C5, C8) -/

/-- C5 at its failing input: with only `UMM_INLINE_METRICS` requested the header
is accepted and the inline hooks call the metric functions, but `UMM_INFO` stays
undefined, the `UMM_HEAP_INFO` record and the five functions are not declared,
and the disabled-mode macros are defined instead. -/
theorem inline_metrics_leaves_info_undefined :
    ∃ e, process Config.inlineMetricsOnly = .ok e ∧
      e.isDefined .UMM_INLINE_METRICS = true ∧
      e.macros .UMM_FRAGMENTATION_METRIC_INIT =
        some ⟨some [], .call .umm_fragmentation_metric_init⟩ ∧
      e.isDefined .UMM_INFO = false ∧
      e.decls .UMM_HEAP_INFO = false ∧
      e.decls .umm_info = false ∧
      e.decls .umm_free_heap_size = false ∧
      e.decls .umm_max_free_block_size = false ∧
      e.decls .umm_usage_metric = false ∧
      e.decls .umm_fragmentation_metric = false ∧
      e.macros .umm_info = some ⟨some ["p", "b"], .empty⟩ ∧
      e.macros .umm_free_heap_size = some ⟨some [], .paren 0⟩ :=
  ⟨_, rfl, by decide⟩

/-- C8 at its failing input: with `UMM_INFO` requested the record and the five
functions are declared; with no switch given `umm_info(p,b)` expands to nothing
and `umm_free_heap_size`, `umm_max_free_block_size` and
`umm_fragmentation_metric` are macros for `(0)`, but `umm_usage_metric` is
neither defined nor declared: the fourth macro for `(0)` is named
`umm_in_use_metric`. -/
theorem usage_metric_has_no_stub :
    (∃ e, process Config.infoOnly = .ok e ∧
      e.decls .UMM_HEAP_INFO = true ∧
      e.decls .umm_info = true ∧
      e.decls .umm_free_heap_size = true ∧
      e.decls .umm_max_free_block_size = true ∧
      e.decls .umm_usage_metric = true ∧
      e.decls .umm_fragmentation_metric = true) ∧
    (∃ e, process Config.defaults = .ok e ∧
      e.macros .umm_info = some ⟨some ["p", "b"], .empty⟩ ∧
      e.macros .umm_free_heap_size = some ⟨some [], .paren 0⟩ ∧
      e.macros .umm_max_free_block_size = some ⟨some [], .paren 0⟩ ∧
      e.macros .umm_fragmentation_metric = some ⟨some [], .paren 0⟩ ∧
      e.macros .umm_in_use_metric = some ⟨some [], .paren 0⟩ ∧
      e.macros .umm_usage_metric = none ∧
      e.decls .umm_usage_metric = false) :=
  ⟨⟨_, rfl, by decide⟩, ⟨_, rfl, by decide⟩⟩

/-! ## Poison constants (C6, C7) -/

/-- C6 at its failing input: with `UMM_POISON_CHECK` requested the three
constants are `(6)`, `(6)` and `uint16_t`, so the overhead
`UMM_POISON_SIZE_BEFORE + UMM_POISON_SIZE_AFTER +
sizeof(UMM_POISONED_BLOCK_LEN_TYPE)` is 14 bytes, not 8. -/
theorem poison_overhead_is_fourteen :
    ∃ e, process Config.poisonOnly = .ok e ∧
      e.constant .UMM_POISON_SIZE_BEFORE = some 6 ∧
      e.constant .UMM_POISON_SIZE_AFTER = some 6 ∧
      (e.typeOf .UMM_POISONED_BLOCK_LEN_TYPE).map CType.sizeof = some 2 ∧
      poisonOverhead e = some 14 ∧
      poisonOverhead e ≠ some 8 :=
  ⟨_, rfl, by decide⟩

/-- C7: in every accepted configuration with `UMM_POISON_CHECK` requested the
poison sizes are 6 bytes before and 6 bytes after and the stored-length type is
the 16-bit `uint16_t`; every length `n ≤ 65535` is stored as `n`, and every
length `n ≥ 65536` is stored as `n mod 2^16`, which differs from `n`. -/
theorem poison_defaults_and_length_width (c : Config)
    (hp : c.UMM_POISON_CHECK = true)
    (h : ¬ (c.UMM_BEST_FIT = true ∧ c.UMM_FIRST_FIT = true)) :
    ∃ e, process c = .ok e ∧
      e.constant .UMM_POISON_SIZE_BEFORE = some 6 ∧
      e.constant .UMM_POISON_SIZE_AFTER = some 6 ∧
      e.typeOf .UMM_POISONED_BLOCK_LEN_TYPE = some .uint16_t ∧
      CType.uint16_t.bits = 16 ∧
      (∀ n, n ≤ 65535 → storeLength e n = some n) ∧
      (∀ n, 65536 ≤ n → storeLength e n = some (n % 2 ^ 16) ∧ n % 2 ^ 16 ≠ n) := by
  have key : ∃ e, process c = .ok e ∧
      e.constant .UMM_POISON_SIZE_BEFORE = some 6 ∧
      e.constant .UMM_POISON_SIZE_AFTER = some 6 ∧
      e.typeOf .UMM_POISONED_BLOCK_LEN_TYPE = some .uint16_t := by
    obtain ⟨t, b, f, i, m, g, p⟩ := c
    cases t <;> cases b <;> cases f <;> cases i <;> cases m <;> cases g <;> cases p <;>
      first
      | exact absurd hp (by decide)
      | exact absurd (And.intro rfl rfl) h
      | exact ⟨_, rfl, by decide⟩
  obtain ⟨e, hok, hb, ha, ht⟩ := key
  refine ⟨e, hok, hb, ha, ht, rfl, ?_, ?_⟩
  · intro n hn
    rw [storeLength_of_uint16 e ht n]
    congr 1
    omega
  · intro n hn
    refine ⟨storeLength_of_uint16 e ht n, ?_⟩
    omega

/-- C7 at the configuration `poisonOnly`. -/
theorem poison_defaults_and_length_width_witness :
    Config.poisonOnly.UMM_POISON_CHECK = true ∧
    ∃ e, process Config.poisonOnly = .ok e ∧
      e.constant .UMM_POISON_SIZE_BEFORE = some 6 ∧
      e.constant .UMM_POISON_SIZE_AFTER = some 6 ∧
      e.typeOf .UMM_POISONED_BLOCK_LEN_TYPE = some .uint16_t ∧
      CType.uint16_t.bits = 16 ∧
      (∀ n, n ≤ 65535 → storeLength e n = some n) ∧
      (∀ n, 65536 ≤ n → storeLength e n = some (n % 2 ^ 16) ∧ n % 2 ^ 16 ≠ n) :=
  ⟨rfl, poison_defaults_and_length_width Config.poisonOnly rfl (by decide)⟩

/-! ## Nesting of the protected section (C3) -/

/-- C3 as stated fails where `int` ends: at depth `INT_MAX` (here for a 32-bit
`int`) the increment of `UMM_CRITICAL_ENTRY` has no defined result, so the depth
is not increased by 1 and the balanced sequence enter, exit started there has no
final depth. -/
theorem entry_at_INT_MAX_has_no_result :
    INT_MAX 32 = 2147483647 ∧
    wellNested [.entry, .exit] ∧
    (¬ ∃ g1, UMM_CRITICAL_ENTRY 32 ⟨2147483647, 2147483647⟩ = some g1 ∧
      g1.umm_critical_depth = 2147483647 + 1) ∧
    run 32 ⟨2147483647, 2147483647⟩ [.entry, .exit] = none := by
  refine ⟨by decide, by decide, ?_, by decide⟩
  rintro ⟨g1, h, _⟩
  have h0 : UMM_CRITICAL_ENTRY 32 ⟨2147483647, 2147483647⟩ = none := by decide
  rw [h0] at h
  cases h

/-- C3, amended: `UMM_CRITICAL_ENTRY` increases `umm_critical_depth` by exactly
1 from every depth below `INT_MAX` and `UMM_CRITICAL_EXIT` decreases it by
exactly 1 from every depth above `INT_MIN`.  For every well-nested sequence
started at a depth `d ≥ INT_MIN` whose deepest nesting level still fits
(`d + peak ≤ INT_MAX`), the run is defined and ends at depth `d`, the depth
after every prefix is at least `d`, and when the sequence is one outermost pair
around a well-nested inner sequence the depth after every proper non-empty
prefix is strictly greater than `d`. -/
theorem nested_pairs_keep_protection (w : Nat) (g : Globals) (cs : List Call)
    (hbal : wellNested cs)
    (hlo : INT_MIN w ≤ g.umm_critical_depth)
    (hhi : g.umm_critical_depth + peak cs ≤ INT_MAX w) :
    (∀ s : Globals, s.umm_critical_depth < INT_MAX w →
      ∃ s1, UMM_CRITICAL_ENTRY w s = some s1 ∧
        s1.umm_critical_depth = s.umm_critical_depth + 1) ∧
    (∀ s : Globals, INT_MIN w < s.umm_critical_depth →
      ∃ s1, UMM_CRITICAL_EXIT w s = some s1 ∧
        s1.umm_critical_depth = s.umm_critical_depth - 1) ∧
    (∃ g1, run w g cs = some g1 ∧ g1.umm_critical_depth = g.umm_critical_depth) ∧
    (∀ p, p <+: cs →
      ∃ gp, run w g p = some gp ∧ g.umm_critical_depth ≤ gp.umm_critical_depth) ∧
    (∀ inner, cs = .entry :: (inner ++ [.exit]) → wellNested inner →
      ∀ p, p <+: cs → p ≠ [] → p ≠ cs →
        ∃ gp, run w g p = some gp ∧ g.umm_critical_depth < gp.umm_critical_depth) := by
  have htr := wellNested_trough cs hbal
  have hnet := wellNested_net cs hbal
  have prefix_run : ∀ p, p <+: cs →
      ∃ gp, run w g p = some gp ∧
        gp.umm_critical_depth = g.umm_critical_depth + net p := by
    rintro p ⟨q, rfl⟩
    have h1 := trough_append_le p q
    have h2 := peak_append_ge p q
    obtain ⟨gp, hrun, hd, _⟩ := run_of_in_range w p g (by omega) (by omega)
    exact ⟨gp, hrun, hd⟩
  refine ⟨?_, ?_, ?_, ?_, ?_⟩
  · intro s hs
    exact ⟨_, entry_of_lt w s hs, rfl⟩
  · intro s hs
    exact ⟨_, exit_of_lt w s hs, rfl⟩
  · obtain ⟨g1, hrun, hd⟩ := prefix_run cs (List.prefix_refl cs)
    exact ⟨g1, hrun, by omega⟩
  · intro p hp
    obtain ⟨gp, hrun, hd⟩ := prefix_run p hp
    obtain ⟨q, rfl⟩ := hp
    have h1 := trough_append_le p q
    have h2 := trough_le_net p
    exact ⟨gp, hrun, by omega⟩
  · intro inner hcs hin p hp hne hnc
    obtain ⟨gp, hrun, hd⟩ := prefix_run p hp
    refine ⟨gp, hrun, ?_⟩
    subst hcs
    rcases List.prefix_cons_iff.1 hp with h0 | ⟨t, rfl, ht⟩
    · exact absurd h0 hne
    · rcases List.prefix_concat_iff.1 ht with h1 | h1
      · exact absurd (by rw [h1]) hnc
      · obtain ⟨r, rfl⟩ := h1
        have h3 := wellNested_trough (t ++ r) hin
        have h4 := trough_append_le t r
        have h5 := trough_le_net t
        have h6 : net (Call.entry :: t) = 1 + net t := rfl
        omega

/-- C3 at a 32-bit `int`, depth 0 and the sequence enter, enter, exit, exit. -/
theorem nested_pairs_keep_protection_witness :
    wellNested [.entry, .entry, .exit, .exit] ∧
    INT_MIN 32 ≤ 0 ∧
    (0 : Int) + peak [.entry, .entry, .exit, .exit] ≤ INT_MAX 32 ∧
    (∃ g1, run 32 ⟨0, 0⟩ [.entry, .entry, .exit, .exit] = some g1 ∧
      g1.umm_critical_depth = 0) ∧
    (∀ p, p <+: [Call.entry, .entry, .exit, .exit] → p ≠ [] →
      p ≠ [.entry, .entry, .exit, .exit] →
        ∃ gp, run 32 ⟨0, 0⟩ p = some gp ∧ 0 < gp.umm_critical_depth) :=
  have h := nested_pairs_keep_protection 32 ⟨0, 0⟩ [.entry, .entry, .exit, .exit]
    (by decide) (by decide) (by decide)
  ⟨by decide, by decide, by decide, h.2.2.1, h.2.2.2.2 [.entry, .exit] rfl (by decide)⟩

/-! ## High-water mark of the nesting depth (C9) -/

/-- C9 as stated fails where `int` ends (here for a 32-bit `int`): from the
state with depth `INT_MIN` and maximum 0, which satisfies `max ≥ depth`, the
decrement of `UMM_CRITICAL_EXIT` has no defined result, and from depth and
maximum `INT_MAX` neither has the increment of `UMM_CRITICAL_ENTRY`; after
these sequences there is no state in which the relation could still hold. -/
theorem run_at_int_bounds_has_no_result :
    INT_MIN 32 = -2147483648 ∧
    (-2147483648 : Int) ≤ 0 ∧
    run 32 ⟨-2147483648, 0⟩ [.exit] = none ∧
    INT_MAX 32 = 2147483647 ∧
    run 32 ⟨2147483647, 2147483647⟩ [.entry] = none := by
  decide

/-- C9, amended: from every state with `umm_max_critical_depth ≥
umm_critical_depth` and for every sequence of enter/exit uses whose nesting
levels all fit in an `int`, the run is defined; afterwards (and after every
prefix) `umm_max_critical_depth ≥ umm_critical_depth` holds, the maximum never
decreases, and its final value is the greatest of its initial value and the
depths reached right after the entries of the sequence.  `UMM_CRITICAL_EXIT`
never changes `umm_max_critical_depth`. -/
theorem max_depth_is_high_water_mark (w : Nat) (g : Globals) (cs : List Call)
    (hinv : g.umm_critical_depth ≤ g.umm_max_critical_depth)
    (hlo : INT_MIN w ≤ g.umm_critical_depth + trough cs)
    (hhi : g.umm_critical_depth + peak cs ≤ INT_MAX w) :
    ∃ g1, run w g cs = some g1 ∧
      g1.umm_critical_depth ≤ g1.umm_max_critical_depth ∧
      g.umm_max_critical_depth ≤ g1.umm_max_critical_depth ∧
      (∀ x ∈ entryDepths g.umm_critical_depth cs, x ≤ g1.umm_max_critical_depth) ∧
      (g1.umm_max_critical_depth = g.umm_max_critical_depth ∨
        g1.umm_max_critical_depth ∈ entryDepths g.umm_critical_depth cs) ∧
      (∀ p q, cs = p ++ q →
        ∃ gp, run w g p = some gp ∧
          gp.umm_critical_depth ≤ gp.umm_max_critical_depth ∧
          g.umm_max_critical_depth ≤ gp.umm_max_critical_depth ∧
          gp.umm_max_critical_depth ≤ g1.umm_max_critical_depth) ∧
      (∀ s : Globals, INT_MIN w < s.umm_critical_depth →
        ∃ s1, UMM_CRITICAL_EXIT w s = some s1 ∧
          s1.umm_max_critical_depth = s.umm_max_critical_depth) := by
  obtain ⟨g1, hrun, _, hm, hi, hall, hmem⟩ := run_of_in_range w cs g hlo hhi
  refine ⟨g1, hrun, hi hinv, hm, hall, hmem, ?_, ?_⟩
  · rintro p q rfl
    have h1 := trough_append_le p q
    have h2 := peak_append_ge p q
    obtain ⟨gp, hp, _, hpm, hpi, _⟩ := run_of_in_range w p g (by omega) (by omega)
    refine ⟨gp, hp, hpi hinv, hpm, ?_⟩
    rw [run_append, hp] at hrun
    exact run_max_mono w q gp g1 hrun
  · intro s hs
    exact ⟨_, exit_of_lt w s hs, rfl⟩

/-- C9 at a 32-bit `int`, the state with depth 1 and maximum 1, and the
sequence exit, enter, enter, exit. -/
theorem max_depth_is_high_water_mark_witness :
    (1 : Int) ≤ 1 ∧
    INT_MIN 32 ≤ 1 + trough [.exit, .entry, .entry, .exit] ∧
    1 + peak [.exit, .entry, .entry, .exit] ≤ INT_MAX 32 ∧
    ∃ g1, run 32 ⟨1, 1⟩ [.exit, .entry, .entry, .exit] = some g1 ∧
      g1.umm_critical_depth ≤ g1.umm_max_critical_depth ∧
      (1 : Int) ≤ g1.umm_max_critical_depth ∧
      (∀ x ∈ entryDepths 1 [.exit, .entry, .entry, .exit], x ≤ g1.umm_max_critical_depth) ∧
      (g1.umm_max_critical_depth = 1 ∨
        g1.umm_max_critical_depth ∈ entryDepths 1 [.exit, .entry, .entry, .exit]) :=
  have h := max_depth_is_high_water_mark 32 ⟨1, 1⟩ [.exit, .entry, .entry, .exit]
    (by decide) (by decide) (by decide)
  ⟨by decide, by decide, by decide,
    h.elim fun g1 h1 => ⟨g1, h1.1, h1.2.1, h1.2.2.1, h1.2.2.2.1, h1.2.2.2.2.1⟩⟩

end UmmMallocCfg
